import Mathlib

/-
  Verification of the Vendor_automation pipeline specification against its
  source (src/source/*.py): field mapping engine, three-layer validation,
  duplicate reconciliation, and the ingestion state machine backed by the
  metadata store.  Python dicts are modelled as insertion-ordered
  association lists, Python numerics (int / float / Decimal) as rationals,
  and Python exceptions as `Except String` values.  External library
  functions (the `re` module, `datetime.fromisoformat`, `hashlib.md5`) are
  modelled as parameters collected in `PyEnv`, since the claims under
  verification do not depend on their internals.
-/

namespace VendorAuto

/-- Association-list lookup, mirroring Python `dict.get` / `d[k]`
(first binding wins; our update keeps at most one binding per key). -/
def aget {α : Type} : List (String × α) → String → Option α
  | [], _ => none
  | (k, v) :: t, key => if k == key then some v else aget t key

/-- Association-list insert-or-replace, mirroring Python `d[k] = v`
(replace in place if the key is present, else append at the end)
and SQLite `INSERT OR REPLACE` on a primary key. -/
def aset {α : Type} : List (String × α) → String → α → List (String × α)
  | [], key, v => [(key, v)]
  | (k, w) :: t, key, v =>
      if k == key then (k, v) :: t else (k, w) :: aset t key v

/-- Number of bindings carrying a given key. -/
def countKey {α : Type} (l : List (String × α)) (key : String) : Nat :=
  (l.filter (fun p => p.1 == key)).length

/-- A Python value as it appears in a row's field maps: a string, a number
(int / float / Decimal collapsed to an exact rational), or `None`. -/
inductive Value where
  | vstr (s : String)
  | vnum (q : ℚ)
  | vnone
deriving DecidableEq, Repr

/-- Row / file field maps: Python `dict[str, Any]`. -/
abbrev Dict := List (String × Value)

/-- Accumulating digit parser: `digitsGo acc cs` reads decimal digits. -/
def digitsGo (acc : Nat) : List Char → Option Nat
  | [] => some acc
  | c :: t => if c.isDigit then digitsGo (acc * 10 + (c.toNat - '0'.toNat)) t else none

/-- Models Python `str.strip()` (default whitespace), implemented over the
character list. -/
def pyStrip (s : String) : String :=
  String.mk (((s.toList.dropWhile Char.isWhitespace).reverse.dropWhile
    Char.isWhitespace).reverse)

/-- Models Python `str.lower()` (ASCII case folding suffices here). -/
def pyLower (s : String) : String := String.mk (s.toList.map Char.toLower)

/-- Models Python `str.upper()` (ASCII case folding suffices here). -/
def pyUpper (s : String) : String := String.mk (s.toList.map Char.toUpper)

/-- Models Python `decimal.Decimal(str)` / `float(str)` on plain decimal
literals: optional surrounding whitespace, optional sign, digits with an
optional fractional part.  Returns `none` where the Python constructor
raises (`decimal.InvalidOperation` resp. `ValueError`). -/
def parseDec (s : String) : Option ℚ :=
  let cs := (pyStrip s).toList
  let (sgn, rest) :=
    match cs with
    | '+' :: t => ((1 : ℚ), t)
    | '-' :: t => ((-1 : ℚ), t)
    | _ => ((1 : ℚ), cs)
  let intPart := rest.takeWhile (fun c => c != '.')
  let dotPart := rest.dropWhile (fun c => c != '.')
  match dotPart with
  | [] =>
      match digitsGo 0 intPart with
      | some n => some (sgn * n)
      | none => none
  | _ :: fracPart =>
      if intPart.isEmpty && fracPart.isEmpty then none
      else
        match digitsGo 0 intPart, digitsGo 0 fracPart with
        | some n, some f => some (sgn * (n + (f : ℚ) / (10 ^ fracPart.length)))
        | _, _ => none

/-- Models Python `int(str)`: optional whitespace, optional sign, digits only. -/
def parseInt (s : String) : Option Int :=
  let cs := (pyStrip s).toList
  let (sgn, rest) :=
    match cs with
    | '+' :: t => ((1 : Int), t)
    | '-' :: t => ((-1 : Int), t)
    | _ => ((1 : Int), cs)
  if rest.isEmpty then none
  else
    match digitsGo 0 rest with
    | some n => some (sgn * n)
    | none => none

/-- Substring containment on char lists (`pat` occurs inside `hay`). -/
def charsContain (pat : List Char) : List Char → Bool
  | [] => pat.isEmpty
  | c :: rest => (pat.isPrefixOf (c :: rest) : Bool) || charsContain pat rest

/-- Models Python `pat in s` on strings. -/
def strContains (hay pat : String) : Bool :=
  pat.toList.isPrefixOf hay.toList || charsContain pat.toList hay.toList

/-- Models Python `str(value)` for values appearing in rows.  The numeric
rendering is abstracted (the claims never inspect it). -/
def valueStr : Value → String
  | .vstr s => s
  | .vnum q => toString q
  | .vnone => "None"

/-- Python truthiness of a row value (`None`, `""` and `0` are falsy). -/
def valueTruthy : Value → Bool
  | .vstr s => s != ""
  | .vnum q => q != 0
  | .vnone => false

/-- Truthiness of a `dict.get` result (`None` for a missing key is falsy). -/
def optTruthy : Option Value → Bool
  | some v => valueTruthy v
  | none => false

/-- External library functions used by the engines, passed as parameters:
`re.match` / `re.search` truthiness, `datetime.fromisoformat` (returning the
parsed timestamp's hour on success, `none` on `ValueError`), and
`hashlib.md5(...).hexdigest()`. -/
structure PyEnv where
  regexMatch : String → String → Bool
  regexSearch : String → String → Bool
  isoParse : String → Option Nat
  md5hex : String → String

/-- models.py `RowStatus`. -/
inductive RowStatus where
  | pending
  | valid
  | flagged
  | error
deriving DecidableEq, Repr

/-- models.py `FileStatus` (constructor `partSuccess` stands for the
source's PARTIAL_SUCCESS value). -/
inductive FileStatus where
  | pending
  | processing
  | partSuccess
  | success
  | failed
deriving DecidableEq, Repr

/-- One validation-error record `{'field'/'fields': ..., 'rule': ..., 'message': ...}`
as appended to `Row.validation_errors`.  Cross-field rules store the
comma-joined field list (dict key `fields` in the source) in `field`. -/
structure Violation where
  field : String
  rule : String
  message : String
deriving DecidableEq, Repr

/-- models.py `Row`, restricted to the attributes the mapping, validation
and reconciliation engines read or write. -/
structure Row where
  row_id : String
  file_id : String
  line_number : Nat
  raw_data : Dict
  normalized_data : Dict
  canonical_data : Dict
  status : RowStatus
  validation_errors : List Violation
deriving DecidableEq, Repr

/-- models.py `MappingRule`.  `pattern` is `Optional[str]` in the source
with default `None`; the match kinds that read it (`regex`, `substring`)
are only exercised with a configured pattern, which we store directly. -/
structure MappingRule where
  vendor_field : String
  canonical_field : String
  rule_type : String
  pattern : String
  priority : Int
  fallback : Bool
  confidence : ℚ
deriving DecidableEq, Repr

/-- Stable insertion of a rule into a priority-sorted list: the new rule
goes before the first rule of strictly greater priority and after all
rules of smaller-or-equal priority that were declared before it. -/
def insertByPriority (r : MappingRule) : List MappingRule → List MappingRule
  | [] => [r]
  | x :: xs =>
      if r.priority ≤ x.priority then r :: x :: xs else x :: insertByPriority r xs

/-- mapper.py line 18: `sorted(mapping_rules, key=lambda r: r.priority)` —
a stable ascending sort by priority (ties keep declaration order). -/
def sortByPriority : List MappingRule → List MappingRule
  | [] => []
  | r :: rs => insertByPriority r (sortByPriority rs)

/-- mapper.py line 35: `source_data = row.normalized_data or row.raw_data`.
A Python empty dict is falsy, so an empty normalized map falls back to the
raw map. -/
def sourceData (row : Row) : Dict :=
  if row.normalized_data.isEmpty then row.raw_data else row.normalized_data

/-- Loop state of `FieldMapper.map_row`: the canonical map, the confidence
map, and the set of consumed vendor fields. -/
structure MapState where
  mapped : Dict
  confidence : List (String × ℚ)
  used : List String
deriving DecidableEq, Repr

/-- Body of the rule loop in `FieldMapper.map_row` (mapper.py lines 42-69)
for one rule: skip rules whose vendor field is absent; `exact` writes
unconditionally; `regex` writes when the value is a string matched by
`re.search`; `substring` writes on literal containment; `function` (and any
other kind) is skipped.  A write replaces any earlier value for the same
canonical field. -/
def applyRule (env : PyEnv) (source : Dict) (st : MapState) (rule : MappingRule) : MapState :=
  match aget source rule.vendor_field with
  | none => st
  | some value =>
      if rule.rule_type == "exact" then
        { mapped := aset st.mapped rule.canonical_field value,
          confidence := aset st.confidence rule.canonical_field rule.confidence,
          used := rule.vendor_field :: st.used }
      else if rule.rule_type == "regex" then
        match value with
        | .vstr s =>
            if env.regexSearch rule.pattern s then
              { mapped := aset st.mapped rule.canonical_field value,
                confidence := aset st.confidence rule.canonical_field rule.confidence,
                used := rule.vendor_field :: st.used }
            else st
        | _ => st
      else if rule.rule_type == "substring" then
        match value with
        | .vstr s =>
            if strContains s rule.pattern then
              { mapped := aset st.mapped rule.canonical_field value,
                confidence := aset st.confidence rule.canonical_field rule.confidence,
                used := rule.vendor_field :: st.used }
            else st
        | _ => st
      else st

/-- mapper.py `FieldMapper.map_row` composed with the constructor's sort:
fold the priority-sorted rules over the source data and return the
canonical map with its confidence map. -/
def map_row (env : PyEnv) (rules : List MappingRule) (row : Row) :
    Dict × List (String × ℚ) :=
  let source := sourceData row
  let final := (sortByPriority rules).foldl (applyRule env source) ⟨[], [], []⟩
  (final.mapped, final.confidence)

/-- Kind-specific parameters of a structural `ValidationRule` (the Python
`**kwargs` dict), with the source's defaults for absent keys. -/
structure VKwargs where
  expected_type : Option String
  min_value : Option ℚ
  max_value : Option ℚ
  values : List Value
  pattern : Option String
  min_length : Option Nat
  max_length : Option Nat
deriving DecidableEq, Repr

/-- validator.py `ValidationRule`: a named field, a rule kind, kind
parameters and the failure message (`kwargs.get('message', default)`,
resolved at construction). -/
structure ValidationRule where
  field : String
  rule_type : String
  kwargs : VKwargs
  message : String
deriving DecidableEq, Repr

/-- Result of one validator function: Python `(is_valid, error_message)`;
the `Except` layer carries exceptions the function does not catch. -/
abbrev ValResult := Except String (Bool × Option String)

/-- validator.py `_required`: `None` and blank strings fail. -/
def requiredCheck (_env : PyEnv) (value : Value) (message : String) (_kw : VKwargs) : ValResult :=
  match value with
  | .vnone => .ok (false, some message)
  | .vstr s => if pyStrip s == "" then .ok (false, some message) else .ok (true, none)
  | _ => .ok (true, none)

/-- validator.py `_type_check`.  `integer` succeeds on any numeric value
(Python `int(float)` truncates without error) and on integer-literal
strings; `decimal` parses with `Decimal`, whose failure on an unparseable
string raises `decimal.InvalidOperation` — an `ArithmeticError` that the
source's `except (ValueError, TypeError)` does NOT catch, so it
propagates; `Decimal(None)` raises `TypeError`, which is caught.  `date`
uses `datetime.fromisoformat` (raises `ValueError`, caught), `email` a
regular-expression match.  Any other expected type falls through to
success. -/
def typeCheck (env : PyEnv) (value : Value) (message : String) (kw : VKwargs) : ValResult :=
  match kw.expected_type with
  | some "integer" =>
      match value with
      | .vnum _ => .ok (true, none)
      | .vstr s => match parseInt s with
        | some _ => .ok (true, none)
        | none => .ok (false, some message)
      | .vnone => .ok (false, some message)
  | some "decimal" =>
      match value with
      | .vnum _ => .ok (true, none)
      | .vstr s => match parseDec s with
        | some _ => .ok (true, none)
        | none => .error "InvalidOperation"
      | .vnone => .ok (false, some message)
  | some "date" =>
      if (env.isoParse (valueStr value)).isSome then .ok (true, none)
      else .ok (false, some message)
  | some "email" =>
      if env.regexMatch "^[^@]+@[^@]+\\.[^@]+$" (valueStr value) then .ok (true, none)
      else .ok (false, some message)
  | _ => .ok (true, none)

/-- validator.py `_range_check` (lines 62-75): a `None` value is replaced
by `Decimal('0')`; a string value is parsed with `Decimal`, whose failure
raises `decimal.InvalidOperation`, which the `except (ValueError,
TypeError)` clause does not catch; bounds are inclusive and compared
exactly. -/
def rangeCheck (_env : PyEnv) (value : Value) (message : String) (kw : VKwargs) : ValResult :=
  let valE : Except String ℚ :=
    match value with
    | .vnone => .ok 0
    | .vnum q => .ok q
    | .vstr s => match parseDec s with
      | some q => .ok q
      | none => .error "InvalidOperation"
  match valE with
  | .error e => .error e
  | .ok val =>
      if h : kw.min_value.isSome then
        if val < kw.min_value.get h then .ok (false, some message)
        else if h2 : kw.max_value.isSome then
          if kw.max_value.get h2 < val then .ok (false, some message)
          else .ok (true, none)
        else .ok (true, none)
      else if h2 : kw.max_value.isSome then
        if kw.max_value.get h2 < val then .ok (false, some message)
        else .ok (true, none)
      else .ok (true, none)

/-- validator.py `_enum_check`: case-insensitive membership by upper-cased
string rendering. -/
def enumCheck (_env : PyEnv) (value : Value) (message : String) (kw : VKwargs) : ValResult :=
  if kw.values.any (fun v => pyUpper (valueStr v) == pyUpper (valueStr value)) then
    .ok (true, none)
  else .ok (false, some message)

/-- validator.py `_regex_check`: no pattern (or empty pattern, falsy) passes. -/
def regexCheck (env : PyEnv) (value : Value) (message : String) (kw : VKwargs) : ValResult :=
  match kw.pattern with
  | some p =>
      if p == "" then .ok (true, none)
      else if env.regexMatch p (valueStr value) then .ok (true, none)
      else .ok (false, some message)
  | none => .ok (true, none)

/-- validator.py `_length_check`: string length within bounds
(`min_length` defaults to 0, `max_length` to infinity; `None` counts as
the empty string). -/
def lengthCheck (_env : PyEnv) (value : Value) (message : String) (kw : VKwargs) : ValResult :=
  let len := match value with
    | .vnone => 0
    | v => (valueStr v).length
  if len < kw.min_length.getD 0 then .ok (false, some message)
  else
    match kw.max_length with
    | some m => if m < len then .ok (false, some message) else .ok (true, none)
    | none => .ok (true, none)

/-- validator.py `_date_format_check`: `None` passes; otherwise
`datetime.fromisoformat` must succeed. -/
def dateFormatCheck (env : PyEnv) (value : Value) (message : String) (_kw : VKwargs) : ValResult :=
  match value with
  | .vnone => .ok (true, none)
  | v => if (env.isoParse (valueStr v)).isSome then .ok (true, none)
         else .ok (false, some message)

/-- The signature shared by the registered validator functions. -/
abbrev ValidatorFn := PyEnv → Value → String → VKwargs → ValResult

/-- validator.py `ValidationRule.VALIDATORS` (lines 118-126): the lookup
from rule kind to validator function; unknown kinds are absent. -/
def validatorFor (ruleType : String) : Option ValidatorFn :=
  if ruleType == "required" then some requiredCheck
  else if ruleType == "type" then some typeCheck
  else if ruleType == "range" then some rangeCheck
  else if ruleType == "enum" then some enumCheck
  else if ruleType == "regex" then some regexCheck
  else if ruleType == "length" then some lengthCheck
  else if ruleType == "date_format" then some dateFormatCheck
  else none

/-- validator.py `ValidationRule.validate` (lines 26-33): look the rule
kind up in the registry; an unknown kind is logged and reported valid. -/
def ValidationRule.run (env : PyEnv) (rule : ValidationRule) (value : Value) : ValResult :=
  match validatorFor rule.rule_type with
  | none => .ok (true, none)
  | some f => f env value rule.message rule.kwargs

/-- Python `error_msg or rule.message` (falsy `None` / empty string fall back). -/
def pyOrStr (msg : Option String) (fallback : String) : String :=
  match msg with
  | some m => if m == "" then fallback else m
  | none => fallback

/-- Loop of `RowValidator.validate` (validator.py lines 145-161) with the
accumulated error list: rules whose field is not a key of the canonical
data are skipped; a failing rule appends one violation; an exception from
a validator function propagates. -/
def rowValidateAux (env : PyEnv) (data : Dict) :
    List ValidationRule → List Violation → Except String (List Violation)
  | [], acc => .ok acc
  | r :: rs, acc =>
      match aget data r.field with
      | none => rowValidateAux env data rs acc
      | some v =>
          match r.run env v with
          | .error e => .error e
          | .ok (true, _) => rowValidateAux env data rs acc
          | .ok (false, msg) =>
              rowValidateAux env data rs
                (acc ++ [⟨r.field, r.rule_type, pyOrStr msg r.message⟩])

/-- validator.py `RowValidator.validate`: returns the list of structural
violations for a row's canonical data. -/
def rowValidate (env : PyEnv) (rules : List ValidationRule) (data : Dict) :
    Except String (List Violation) :=
  rowValidateAux env data rules []

/-- A value during formula evaluation: the float coercion of a field, the
original string when `float()` failed, or a comparison result. -/
inductive PyVal where
  | float (q : ℚ)
  | str (s : String)
  | bool (b : Bool)
deriving DecidableEq, Repr

/-- The restricted arithmetic / comparison expressions appearing as
cross-field `formula` strings, evaluated by `eval(formula,
{"__builtins__": {}}, field_values)` over the closed field namespace. -/
inductive FExpr where
  | lit (q : ℚ)
  | var (name : String)
  | add (a b : FExpr)
  | sub (a b : FExpr)
  | mul (a b : FExpr)
  | eq (a b : FExpr)
  | lt (a b : FExpr)
  | le (a b : FExpr)
deriving DecidableEq, Repr

/-- Lexicographic string comparison (Python `<` on `str`). -/
def strLt (a b : String) : Bool := decide (a < b)

/-- Python `+`: numbers add, strings concatenate, mixed raises `TypeError`. -/
def pyAdd : PyVal → PyVal → Except String PyVal
  | .float a, .float b => .ok (.float (a + b))
  | .str a, .str b => .ok (.str (a ++ b))
  | _, _ => .error "TypeError"

/-- Python `-` on numbers; anything else raises `TypeError`. -/
def pySub : PyVal → PyVal → Except String PyVal
  | .float a, .float b => .ok (.float (a - b))
  | _, _ => .error "TypeError"

/-- Python `*` on numbers; anything else raises `TypeError`. -/
def pyMul : PyVal → PyVal → Except String PyVal
  | .float a, .float b => .ok (.float (a * b))
  | _, _ => .error "TypeError"

/-- Python `==`: same-kind comparison; cross-kind equality is `False`. -/
def pyEq : PyVal → PyVal → Except String PyVal
  | .float a, .float b => .ok (.bool (a == b))
  | .str a, .str b => .ok (.bool (a == b))
  | .bool a, .bool b => .ok (.bool (a == b))
  | _, _ => .ok (.bool false)

/-- Python `<`: numbers or strings; mixed kinds raise `TypeError`. -/
def pyLt : PyVal → PyVal → Except String PyVal
  | .float a, .float b => .ok (.bool (a < b))
  | .str a, .str b => .ok (.bool (strLt a b))
  | _, _ => .error "TypeError"

/-- Python `<=`: numbers or strings; mixed kinds raise `TypeError`. -/
def pyLe : PyVal → PyVal → Except String PyVal
  | .float a, .float b => .ok (.bool (a ≤ b))
  | .str a, .str b => .ok (.bool (!strLt b a))
  | _, _ => .error "TypeError"

/-- Python truthiness of an evaluation result (`if not result`). -/
def pyTruthy : PyVal → Bool
  | .float q => q != 0
  | .str s => s != ""
  | .bool b => b

/-- Evaluation of a formula over the coerced field values: a name missing
from the namespace raises `NameError`; operators raise `TypeError` on
unsupported operand kinds. -/
def evalF (vals : List (String × PyVal)) : FExpr → Except String PyVal
  | .lit q => .ok (.float q)
  | .var x =>
      match aget vals x with
      | some v => .ok v
      | none => .error ("NameError: name " ++ x ++ " is not defined")
  | .add a b => do pyAdd (← evalF vals a) (← evalF vals b)
  | .sub a b => do pySub (← evalF vals a) (← evalF vals b)
  | .mul a b => do pyMul (← evalF vals a) (← evalF vals b)
  | .eq a b => do pyEq (← evalF vals a) (← evalF vals b)
  | .lt a b => do pyLt (← evalF vals a) (← evalF vals b)
  | .le a b => do pyLe (← evalF vals a) (← evalF vals b)

/-- cross_field_validator.py `CrossFieldRule` with the `kwargs` keys each
rule kind reads. -/
structure CrossFieldRule where
  fields : List String
  rule_type : String
  formula : FExpr
  condition_field : Option String
  condition_value : Option Value
  required_field : Option String
  message : String
deriving Repr

/-- Field-value namespace built by `_validate_formula` (lines 38-45):
fields whose canonical value is present and not `None`, coerced with
`float()` where possible and kept as the original value otherwise. -/
def buildFieldVals (data : Dict) (fields : List String) : List (String × PyVal) :=
  fields.foldl
    (fun acc f =>
      match aget data f with
      | none => acc
      | some .vnone => acc
      | some (.vstr s) =>
          match parseDec s with
          | some q => aset acc f (.float q)
          | none => aset acc f (.str s)
      | some (.vnum q) => aset acc f (.float q))
    []

/-- cross_field_validator.py `_validate_formula` (lines 32-59): evaluate
the formula over the coerced field values; a falsy result yields a
violation; an evaluation error is caught, logged and yields NO violation
(the rule passes silently). -/
def validateFormula (rule : CrossFieldRule) (data : Dict) : Option Violation :=
  match evalF (buildFieldVals data rule.fields) rule.formula with
  | .ok r =>
      if pyTruthy r then none
      else some ⟨String.intercalate "," rule.fields, "formula", rule.message⟩
  | .error _ => none

/-- Python `canonical_data.get(f)` where `f` itself may be `None`
(an absent kwarg): a `None` key is never present. -/
def dgetOpt (data : Dict) : Option String → Option Value
  | some f => aget data f
  | none => none

/-- cross_field_validator.py `_validate_dependency` (lines 61-75). -/
def validateDependency (rule : CrossFieldRule) (data : Dict) : Option Violation :=
  if dgetOpt data rule.condition_field == rule.condition_value then
    if optTruthy (dgetOpt data rule.required_field) then none
    else
      some ⟨(rule.condition_field.getD "None") ++ "," ++ (rule.required_field.getD "None"),
            "dependency", rule.message⟩
  else none

/-- cross_field_validator.py `_validate_mutual_exclusion` (lines 77-88). -/
def validateMutualExclusion (rule : CrossFieldRule) (data : Dict) : Option Violation :=
  if 1 < (rule.fields.filter (fun f => optTruthy (aget data f))).length then
    some ⟨String.intercalate "," rule.fields, "mutual_exclusion", rule.message⟩
  else none

/-- cross_field_validator.py `CrossFieldRule.validate` (lines 21-30):
dispatch on the rule kind; unknown kinds return no violation. -/
def CrossFieldRule.run (rule : CrossFieldRule) (data : Dict) : Option Violation :=
  if rule.rule_type == "formula" then validateFormula rule data
  else if rule.rule_type == "dependency" then validateDependency rule data
  else if rule.rule_type == "mutual_exclusion" then validateMutualExclusion rule data
  else none

/-- cross_field_validator.py `CrossFieldValidator.validate`: collect the
violations of all cross-field rules in order. -/
def crossValidate (rules : List CrossFieldRule) (data : Dict) : List Violation :=
  rules.foldl
    (fun acc rule =>
      match rule.run data with
      | some err => acc ++ [err]
      | none => acc)
    []

/-- semantic_validator.py `SemanticRule` with the kwargs its kinds read. -/
structure SemanticRule where
  rule_type : String
  allowed_from : List Value
  message : String
deriving Repr

/-- semantic_validator.py `_validate_status_transition` (lines 31-43):
the current `order_status` must be in the allow-list (a missing field
compares as `None`, which is not in a configured list). -/
def validateStatusTransition (rule : SemanticRule) (data : Dict) : Option Violation :=
  let current := (aget data "order_status").getD .vnone
  if rule.allowed_from.contains current then none
  else some ⟨"order_status", "status_transition", rule.message⟩

/-- semantic_validator.py `_validate_business_hours` (lines 45-65): a
truthy `created_at` parsed by `fromisoformat` must have an hour in
[9, 17); a parse failure passes. -/
def validateBusinessHours (env : PyEnv) (rule : SemanticRule) (data : Dict) : Option Violation :=
  match aget data "created_at" with
  | some v =>
      if valueTruthy v then
        match env.isoParse (valueStr v) with
        | some hour =>
            if hour < 9 || 17 ≤ hour then
              some ⟨"created_at", "business_hours", rule.message⟩
            else none
        | none => none
      else none
  | none => none

/-- semantic_validator.py `SemanticRule.validate` (lines 20-29):
dispatch on the rule kind; `inventory` is a no-op placeholder and unknown
kinds return no violation. -/
def SemanticRule.run (env : PyEnv) (rule : SemanticRule) (data : Dict) : Option Violation :=
  if rule.rule_type == "status_transition" then validateStatusTransition rule data
  else if rule.rule_type == "business_hours" then validateBusinessHours env rule data
  else if rule.rule_type == "inventory" then none
  else none

/-- semantic_validator.py `SemanticValidator.validate`. -/
def semValidate (env : PyEnv) (rules : List SemanticRule) (data : Dict) : List Violation :=
  rules.foldl
    (fun acc rule =>
      match rule.run env data with
      | some err => acc ++ [err]
      | none => acc)
    []

/-- validation_pipeline.py `ValidationPipeline.validate_row` (lines
43-74): run the structural, cross-field and semantic layers over the
row's canonical data (`row.canonical_data or {}` is the identity in this
model), concatenate their violations, and set the status to VALID exactly
when the combined list is empty.  An exception raised by a structural
validator function propagates (nothing in the pipeline catches it before
`validate_file`). -/
def validate_row (env : PyEnv) (srules : List ValidationRule)
    (crules : List CrossFieldRule) (mrules : List SemanticRule) (row : Row) :
    Except String Row :=
  let data := row.canonical_data
  match rowValidate env srules data with
  | .error e => .error e
  | .ok fieldErrors =>
      let errors := fieldErrors ++ crossValidate crules data ++ semValidate env mrules data
      .ok { row with
              validation_errors := errors,
              status := if errors.isEmpty then .valid else .flagged }

/-- reconciler.py `generate_dedup_key` (lines 18-38): from canonical data
(raw as fallback when canonical is empty/falsy), take each key field's
value with default `''`, skip `None` values, lower-case and strip the
string rendering, pipe-join, and hash with md5. -/
def generate_dedup_key (env : PyEnv) (row : Row) (keyFields : List String) : String :=
  let data := if row.canonical_data.isEmpty then row.raw_data else row.canonical_data
  let parts := keyFields.foldl
    (fun acc f =>
      match aget data f with
      | none => acc ++ [""]
      | some .vnone => acc
      | some v => acc ++ [pyStrip (pyLower (valueStr v))])
    []
  env.md5hex (String.intercalate "|" parts)

/-- Insert-or-append used by the `duplicates` dict of `find_duplicates`:
append the index to the existing group of the key, or start a new group
at the end (Python dict insertion order). -/
def groupAppend (d : List (String × List Nat)) (k : String) (i : Nat) :
    List (String × List Nat) :=
  match d with
  | [] => [(k, [i])]
  | (k', l) :: rest =>
      if k' == k then (k', l ++ [i]) :: rest else (k', l) :: groupAppend rest k i

/-- Loop of reconciler.py `find_duplicates` (lines 55-60) over
`enumerate(rows)` with the running index and dict. -/
def buildGroupsGo (env : PyEnv) (keyFields : List String) :
    List Row → Nat → List (String × List Nat) → List (String × List Nat)
  | [], _, d => d
  | r :: rs, i, d =>
      buildGroupsGo env keyFields rs (i + 1) (groupAppend d (generate_dedup_key env r keyFields) i)

/-- reconciler.py `find_duplicates`: group row indices by dedup key and
keep only the groups with more than one member. -/
def find_duplicates (env : PyEnv) (rows : List Row) (keyFields : List String) :
    List (String × List Nat) :=
  (buildGroupsGo env keyFields rows 0 []).filter (fun p => 1 < p.2.length)

/-- The duplicate marker appended by `mark_duplicates`, referencing the
index of the kept row. -/
def dupViolation (keptIdx : Nat) : Violation :=
  ⟨"_deduplicate", "duplicate", "Duplicate of row " ++ toString keptIdx⟩

/-- A row with the duplicate marker appended to its violation list. -/
def addDupViol (r : Row) (keptIdx : Nat) : Row :=
  { r with validation_errors := r.validation_errors ++ [dupViolation keptIdx] }

/-- One `rows[idx].validation_errors.append(...)` of `mark_duplicates`:
update the row at `idx` in place (indices produced by `enumerate` are
always in range). -/
def appendDupAt (rows : List Row) (keptIdx idx : Nat) : List Row :=
  match rows[idx]? with
  | some r => rows.set idx (addDupViol r keptIdx)
  | none => rows

/-- Marking of one duplicate group (reconciler.py lines 82-93): under
keep-first, every index after the first gets a violation referencing
`indices[0]`. -/
def markGroup (keepFirst : Bool) (rows : List Row) (indices : List Nat) : List Row :=
  (if keepFirst then indices.drop 1 else indices).foldl
    (fun rs idx => appendDupAt rs (indices.headD 0) idx) rows

/-- reconciler.py `mark_duplicates` (lines 65-96). -/
def mark_duplicates (env : PyEnv) (rows : List Row) (keyFields : List String)
    (keepFirst : Bool) : List Row :=
  (find_duplicates env rows keyFields).foldl (fun rs p => markGroup keepFirst rs p.2) rows

/-- Dedup key of the row at a list index (used to state grouping facts). -/
def keyAt (env : PyEnv) (keyFields : List String) (rows : List Row) (i : Nat) : String :=
  match rows[i]? with
  | some r => generate_dedup_key env r keyFields
  | none => ""

/-- All indices of `rows` whose dedup key is `k`, in ascending order. -/
def keyIndices (env : PyEnv) (keyFields : List String) (rows : List Row) (k : String) :
    List Nat :=
  (List.range rows.length).filter (fun i => keyAt env keyFields rows i == k)

/-- The FileRecord state tracked by the metadata store (metadata_store.py
`files` table), restricted to the fields the ingestion claims inspect. -/
structure StoredFile where
  file_id : String
  status : FileStatus
  error_message : Option String
  row_count : Nat
deriving DecidableEq, Repr

/-- A persisted RowRecord (metadata_store.py `rows` table), restricted to
identity and raw payload as written during ingestion. -/
structure StoredRow where
  row_id : String
  file_id : String
  line_number : Nat
  raw_data : Dict
deriving DecidableEq, Repr

/-- The metadata store: files and rows, each keyed by primary key with
`INSERT OR REPLACE` upsert semantics. -/
structure Store where
  files : List (String × StoredFile)
  rows : List (String × StoredRow)
deriving DecidableEq, Repr

/-- metadata_store.py `insert_file`: upsert by `file_id`. -/
def insertFile (s : Store) (m : StoredFile) : Store :=
  { s with files := aset s.files m.file_id m }

/-- metadata_store.py `insert_row`: upsert by `row_id`. -/
def insertRow (s : Store) (r : StoredRow) : Store :=
  { s with rows := aset s.rows r.row_id r }

/-- metadata_store.py `get_rows_by_file`: rows of a file ordered by line
number (insertion order during ingestion is already by line number). -/
def rowsByFile (s : Store) (fileId : String) : List StoredRow :=
  ((s.rows.map Prod.snd).filter (fun r => r.file_id == fileId)).mergeSort
    (fun a b => a.line_number ≤ b.line_number)

/-- utils.py `generate_row_id`: deterministic `f"{file_id}_{line_number}"`. -/
def generate_row_id (fileId : String) (lineNumber : Nat) : String :=
  fileId ++ "_" ++ toString lineNumber

/-- A file presented to the ingestion pipeline: its content hash
(`compute_file_hash` of the bytes, so byte-identical content has the same
hash) and the outcome of decoding the bytes — the chunks the parser
yields, followed by an optional decode error raised at the next read.
The decode runs lazily: `_parse_and_create_rows` is a generator, so
nothing of it executes until the returned iterator is consumed. -/
structure IngestFile where
  hash : String
  chunks : List (List Dict)
  decodeError : Option String
deriving DecidableEq, Repr

/-- Outcome of the eager part of `process_file`: either the cached rows of
an already-successful file, or a fresh (not yet consumed) row iterator. -/
inductive ProcessOutcome where
  | cached (rows : List StoredRow)
  | fresh
deriving DecidableEq, Repr

/-- Eager part of ingestion_pipeline.py `process_file` (lines 49-99): fetch
and hash the file; if a record with terminal SUCCESS status exists, return
the cached rows without touching the store; otherwise persist the record
as PROCESSING, detect the format, create the (unexecuted) parse generator,
and persist the record as SUCCESS — all before any row is decoded.  The
`except` block that would persist FAILED can only fire on a store failure
inside the `try`, never on a decode failure, because generator creation
executes none of the parsing. -/
def processFileEager (s : Store) (f : IngestFile) : Store × ProcessOutcome :=
  match aget s.files f.hash with
  | some existing =>
      if existing.status = .success then (s, .cached (rowsByFile s f.hash))
      else
        let s1 := insertFile s ⟨f.hash, .processing, none, 0⟩
        let s2 := insertFile s1 ⟨f.hash, .success, none, 0⟩
        (s2, .fresh)
  | none =>
      let s1 := insertFile s ⟨f.hash, .processing, none, 0⟩
      let s2 := insertFile s1 ⟨f.hash, .success, none, 0⟩
      (s2, .fresh)

/-- The rows created by `_parse_and_create_rows` for the yielded chunks,
with 1-based line numbers across chunks. -/
def rowsOfChunks (fileId : String) (chunks : List (List Dict)) : List StoredRow :=
  (chunks.flatten.enumFrom 1).map
    (fun p => ⟨generate_row_id fileId p.1, fileId, p.1, p.2⟩)

/-- Consumption of the row iterator (ingestion_pipeline.py lines 101-139
as driven by the `for chunk in rows` loop of the caller): each yielded
row is persisted; after the last successful chunk, either the decode error
surfaces (leaving the SUCCESS record written by the eager part in place)
or the record is re-persisted with the final row count.  Returns the
store, the number of rows yielded, and the surfaced error, if any. -/
def consumeRows (s : Store) (f : IngestFile) : Store × Nat × Option String :=
  let rows := rowsOfChunks f.hash f.chunks
  let s1 := rows.foldl insertRow s
  match f.decodeError with
  | some e => (s1, rows.length, some e)
  | none => (insertFile s1 ⟨f.hash, .success, none, rows.length⟩, rows.length, none)

/-- One file of ingestion_pipeline.py `process_directory` (lines 174-186):
run `process_file`, then drive the returned iterator, catching any
exception it raises into the error list. -/
def processOneFile (s : Store) (f : IngestFile) : Store × Nat × Option String :=
  match processFileEager s f with
  | (s1, .cached rows) => (s1, rows.length, none)
  | (s1, .fresh) => consumeRows s1 f

/-- The store after fully ingesting one file (eager part plus iterator
consumption), as `process_directory` leaves it. -/
def runIngest (s : Store) (f : IngestFile) : Store :=
  (processOneFile s f).1

/-- The batch summary accumulated by `process_directory`: total row count
and the batch-level error strings. -/
structure BatchRes where
  total_rows : Nat
  errors : List String
deriving DecidableEq, Repr

/-- ingestion_pipeline.py `process_directory` (lines 146-192) over a list
of files: per-file errors are appended to the batch error list and
processing continues with the next file. -/
def processDirectory (s : Store) (files : List IngestFile) : Store × BatchRes :=
  files.foldl
    (fun acc f =>
      let (s1, n, err) := processOneFile acc.1 f
      match err with
      | some e => (s1, ⟨acc.2.total_rows + n, acc.2.errors ++ [e]⟩)
      | none => (s1, ⟨acc.2.total_rows + n, acc.2.errors⟩))
    (s, ⟨0, []⟩)

/-! Concrete fixtures used to instantiate the parametric theorems and to
exhibit counterexamples.  `envNull` instantiates the external-function
parameters; the inputs below exercise only code paths that never call
them (exact mapping rules, numeric validation), so the evaluations agree
with every environment. -/

/-- A concrete external environment. -/
def envNull : PyEnv :=
  ⟨fun _ _ => false, fun _ _ => false, fun _ => none, fun s => s⟩

/-- Mapping rule `Qty → quantity`, exact, priority 5 (the spec's rule A). -/
def ruleQtyP5 : MappingRule := ⟨"Qty", "quantity", "exact", "", 5, false, 9/10⟩

/-- Mapping rule `Quantity → quantity`, exact, priority 10 (the spec's rule B). -/
def ruleQuantityP10 : MappingRule := ⟨"Quantity", "quantity", "exact", "", 10, false, 4/5⟩

/-- A normalized row containing both vendor fields of the two rules. -/
def rowBothQty : Row :=
  ⟨"f_1", "f", 1, [], [("Qty", .vstr "2"), ("Quantity", .vstr "3")], [], .pending, []⟩

/-- A row with an empty normalized map and raw `Qty = "2"`. -/
def rowEmptyNormA : Row := ⟨"f_1", "f", 1, [("Qty", .vstr "2")], [], [], .pending, []⟩

/-- A row with an empty normalized map and raw `Qty = "3"`. -/
def rowEmptyNormB : Row := ⟨"f_2", "f", 2, [("Qty", .vstr "3")], [], [], .pending, []⟩

/-- A row with raw `Qty = "7"` and normalized `Qty = "2"`. -/
def rowNormSameA : Row :=
  ⟨"f_1", "f", 1, [("Qty", .vstr "7")], [("Qty", .vstr "2")], [], .pending, []⟩

/-- A row with raw `Qty = "8"` and the same normalized map as `rowNormSameA`. -/
def rowNormSameB : Row :=
  ⟨"f_2", "f", 2, [("Qty", .vstr "8")], [("Qty", .vstr "2")], [], .pending, []⟩

/-- Kwargs with every key absent (an empty `**kwargs`). -/
def noKwargs : VKwargs := ⟨none, none, none, [], none, none, none⟩

/-- A cross-field formula rule over `quantity` and `total` whose
expression references `total`. -/
def ruleFormulaTotal : CrossFieldRule :=
  ⟨["quantity", "total"], "formula", .var "total", none, none, none, "total mismatch"⟩

/-- Canonical data without a `total` field. -/
def dataNoTotal : Dict := [("quantity", .vnum 2)]

/-- A structural range rule on `amount` with inclusive minimum 0. -/
def rangeRuleAmount : ValidationRule :=
  ⟨"amount", "range", { noKwargs with min_value := some 0 }, "amount out of range"⟩

/-- A semantic status-transition rule allowing only `done`. -/
def semRuleStatus : SemanticRule := ⟨"status_transition", [.vstr "done"], "illegal status"⟩

/-- A row whose `amount` is a string `Decimal` cannot parse and whose
`order_status` violates `semRuleStatus`. -/
def rowBadAmount : Row :=
  ⟨"f_1", "f", 1, [], [],
    [("amount", .vstr "abc"), ("order_status", .vstr "new")], .pending, []⟩

/-- A row whose `amount` passes the range rule and whose `order_status`
violates `semRuleStatus`. -/
def rowGoodAmount : Row :=
  ⟨"f_1", "f", 1, [], [],
    [("amount", .vnum 5), ("order_status", .vstr "new")], .pending, []⟩

/-- A required rule on a field that the data below lacks. -/
def reqRuleMissing : ValidationRule := ⟨"warehouse", "required", noKwargs, "warehouse required"⟩

/-- A length rule on `amount` used as surrounding context for claim C8. -/
def lenRuleAmount : ValidationRule :=
  ⟨"amount", "length", { noKwargs with max_length := some 2 }, "amount too long"⟩

/-- A structural rule of an unregistered kind. -/
def unknownKindRule : ValidationRule := ⟨"amount", "uniqueness", noKwargs, "dup"⟩

/-- Range kwargs with inclusive bounds [1, 10]. -/
def kwRange1to10 : VKwargs := { noKwargs with min_value := some 1, max_value := some 10 }

/-- The empty metadata store. -/
def emptyStore : Store := ⟨[], []⟩

/-- A file whose bytes decode to one chunk of one row. -/
def fileOneRow : IngestFile := ⟨"hash1", [[[("a", .vstr "1")]]], none⟩

/-- A file whose decoder raises at the first read. -/
def fileBadDecode : IngestFile := ⟨"hash2", [], some "decode failure: bad byte"⟩

/-- Rows for the duplicate-marking scenario: index 0 (`"a100 "`, with a
pre-existing violation) and index 1 (`"A100"`) share a dedup key; index 2
is unique. -/
def rowDupA : Row :=
  ⟨"f_1", "f", 1, [], [], [("order_id", .vstr "a100 ")], .flagged,
    [⟨"amount", "range", "out of range"⟩]⟩

/-- Second member of the duplicate group (same key as `rowDupA`). -/
def rowDupB : Row := ⟨"f_2", "f", 2, [], [], [("order_id", .vstr "A100")], .valid, []⟩

/-- A row with a unique dedup key. -/
def rowDupC : Row := ⟨"f_3", "f", 3, [], [], [("order_id", .vstr "Z9")], .valid, []⟩

/-- The three-row list of the duplicate scenario. -/
def rowsDup : List Row := [rowDupA, rowDupB, rowDupC]

end VendorAuto

namespace VendorAuto

/-! Association-list lemmas shared by the claim proofs. -/

theorem aget_aset_self {α : Type} (l : List (String × α)) (k : String) (v : α) :
    aget (aset l k v) k = some v := by
  induction l with
  | nil => simp [aset, aget]
  | cons p t ih =>
      by_cases h : p.1 = k
      · simp [aset, aget, h]
      · simp only [aset, aget]
        rw [if_neg (by simpa using h)]
        simp only [aget]
        rw [if_neg (by simpa using h)]
        exact ih

theorem aget_aset_ne {α : Type} (l : List (String × α)) (k k' : String) (v : α)
    (h : k ≠ k') : aget (aset l k v) k' = aget l k' := by
  induction l with
  | nil => simp [aset, aget, h]
  | cons p t ih =>
      by_cases hp : p.1 = k
      · simp [aset, aget, hp, h]
      · simp only [aset, aget]
        rw [if_neg (by simpa using hp)]
        simp only [aget]
        split <;> simp_all

/-! Claim C1: precedence between two mapping rules targeting the same
canonical field. -/

/-- Claim C1 (corrected): the claim asserts that the lower-priority-number
rule's value survives, but `map_row` writes unconditionally on every
match, so the LAST matching rule in ascending priority order — the one
with the higher priority number — determines the canonical field's value
and confidence, regardless of declaration order. -/
theorem mapper_last_matching_rule_wins (env : PyEnv) (r₁ r₂ : MappingRule)
    (row : Row) (c : String) (v₁ v₂ : Value)
    (ht₁ : r₁.rule_type = "exact") (ht₂ : r₂.rule_type = "exact")
    (hc₁ : r₁.canonical_field = c) (hc₂ : r₂.canonical_field = c)
    (hv : r₁.vendor_field ≠ r₂.vendor_field)
    (hp : r₁.priority < r₂.priority)
    (h₁ : aget (sourceData row) r₁.vendor_field = some v₁)
    (h₂ : aget (sourceData row) r₂.vendor_field = some v₂) :
    (aget (map_row env [r₁, r₂] row).1 c = some v₂
      ∧ aget (map_row env [r₁, r₂] row).2 c = some r₂.confidence)
    ∧ (aget (map_row env [r₂, r₁] row).1 c = some v₂
      ∧ aget (map_row env [r₂, r₁] row).2 c = some r₂.confidence) := by
  have hsort₁ : sortByPriority [r₁, r₂] = [r₁, r₂] := by
    simp [sortByPriority, insertByPriority, le_of_lt hp]
  have hsort₂ : sortByPriority [r₂, r₁] = [r₁, r₂] := by
    simp [sortByPriority, insertByPriority, not_le.mpr hp]
  have hfold :
      (sortByPriority [r₁, r₂]).foldl (applyRule env (sourceData row)) ⟨[], [], []⟩
        = (sortByPriority [r₂, r₁]).foldl (applyRule env (sourceData row)) ⟨[], [], []⟩ := by
    rw [hsort₁, hsort₂]
  have hstep :
      ([r₁, r₂]).foldl (applyRule env (sourceData row)) ⟨[], [], []⟩
        = applyRule env (sourceData row)
            (applyRule env (sourceData row) ⟨[], [], []⟩ r₁) r₂ := rfl
  have h₁' : applyRule env (sourceData row) ⟨[], [], []⟩ r₁
      = ⟨aset [] c v₁, aset [] c r₁.confidence, [r₁.vendor_field]⟩ := by
    simp [applyRule, h₁, ht₁, hc₁]
  have h₂' : applyRule env (sourceData row)
        (⟨aset [] c v₁, aset [] c r₁.confidence, [r₁.vendor_field]⟩ : MapState) r₂
      = ⟨aset (aset [] c v₁) c v₂,
          aset (aset [] c r₁.confidence) c r₂.confidence,
          [r₂.vendor_field, r₁.vendor_field]⟩ := by
    simp [applyRule, h₂, ht₂, hc₂]
  constructor
  · constructor
    · simp [map_row, hsort₁, hstep, h₁', h₂', aget_aset_self]
    · simp [map_row, hsort₁, hstep, h₁', h₂', aget_aset_self]
  · constructor
    · simp [map_row, hsort₂, hstep, h₁', h₂', aget_aset_self]
    · simp [map_row, hsort₂, hstep, h₁', h₂', aget_aset_self]

/-- Claim C1 witness: the amended theorem applied to the spec's own
example scenario (rule A priority 5 on `Qty`, rule B priority 10 on
`Quantity`, a row containing both): the higher-priority-number rule B's
value `"3"` wins in either declaration order. -/
theorem mapper_last_matching_rule_wins_witness :
    (aget (map_row envNull [ruleQtyP5, ruleQuantityP10] rowBothQty).1 "quantity"
        = some (Value.vstr "3")
      ∧ aget (map_row envNull [ruleQtyP5, ruleQuantityP10] rowBothQty).2 "quantity"
        = some ruleQuantityP10.confidence)
    ∧ (aget (map_row envNull [ruleQuantityP10, ruleQtyP5] rowBothQty).1 "quantity"
        = some (Value.vstr "3")
      ∧ aget (map_row envNull [ruleQuantityP10, ruleQtyP5] rowBothQty).2 "quantity"
        = some ruleQuantityP10.confidence) :=
  mapper_last_matching_rule_wins envNull ruleQtyP5 ruleQuantityP10 rowBothQty
    "quantity" (Value.vstr "2") (Value.vstr "3")
    rfl rfl rfl rfl (by decide) (by decide) rfl rfl

/-- Claim C1 counterexample: with rule A (priority 5, `Qty → quantity`)
declared before rule B (priority 10, `Quantity → quantity`) and both
vendor fields present, the claim predicts rule A's value `"2"`, but the
code produces rule B's value `"3"` — the earlier, lower-priority-number
write is overwritten, not protected. -/
theorem mapper_priority_claim_false :
    aget (map_row envNull [ruleQtyP5, ruleQuantityP10] rowBothQty).1 "quantity"
      = some (Value.vstr "3")
    ∧ aget (map_row envNull [ruleQtyP5, ruleQuantityP10] rowBothQty).1 "quantity"
      ≠ some (Value.vstr "2") := by
  constructor
  · rfl
  · decide

/-! Claim C5: mapping output as a function of the normalized data and the
rule set. -/

/-- `map_row` reads the row only through `sourceData`. -/
theorem map_row_congr_source (env : PyEnv) (rules : List MappingRule)
    (row₁ row₂ : Row) (h : sourceData row₁ = sourceData row₂) :
    map_row env rules row₁ = map_row env rules row₂ := by
  unfold map_row
  rw [h]

/-- Claim C5 (corrected): the mapping output is a function of the
normalized field map and the rule set PROVIDED the normalized map is
non-empty; `source_data = row.normalized_data or row.raw_data` falls back
to the raw map when the normalized map is empty.  Under that proviso, two
rows with identical normalized data yield identical canonical and
confidence maps regardless of their raw data, and re-running the mapping
reproduces the same output (the embedding is a pure function). -/
theorem mapper_output_determined_by_normalized (env : PyEnv)
    (rules : List MappingRule) (row₁ row₂ : Row)
    (h : row₁.normalized_data = row₂.normalized_data)
    (hne : row₁.normalized_data ≠ []) :
    map_row env rules row₁ = map_row env rules row₂ := by
  apply map_row_congr_source
  have h₁ : row₁.normalized_data.isEmpty = false := by
    cases hh : row₁.normalized_data with
    | nil => exact absurd hh hne
    | cons a t => simp [List.isEmpty]
  have h₂ : row₂.normalized_data.isEmpty = false := by
    rw [← h]; exact h₁
  unfold sourceData
  rw [h₁, h₂]
  exact h

/-- Claim C5 witness: two rows sharing the non-empty normalized map
`{Qty: "2"}` but with different raw maps produce identical mapping
output. -/
theorem mapper_output_determined_by_normalized_witness :
    map_row envNull [ruleQtyP5] rowNormSameA = map_row envNull [ruleQtyP5] rowNormSameB :=
  mapper_output_determined_by_normalized envNull [ruleQtyP5] rowNormSameA rowNormSameB
    rfl (by decide)

/-- Claim C5 counterexample: two rows with identical (empty) normalized
maps but different raw maps are mapped to different outputs — the raw map
leaks into the canonical data through the `or` fallback, so the output is
not a function of the normalized data and rule set alone. -/
theorem mapper_raw_data_leaks :
    rowEmptyNormA.normalized_data = rowEmptyNormB.normalized_data
    ∧ map_row envNull [ruleQtyP5] rowEmptyNormA ≠ map_row envNull [ruleQtyP5] rowEmptyNormB := by
  constructor
  · rfl
  · decide

/-! Claim C2: disposition of a cross-field formula rule whose expression
fails to evaluate. -/

/-- Claim C2 (corrected): an evaluation error in a formula rule does NOT
record a violation — `_validate_formula` catches the exception, logs it
and returns `None`, so the rule passes the row silently.  (The other half
of the claim holds: no exception escapes, since the handler catches every
`Exception`.) -/
theorem formula_eval_error_passes_silently (rule : CrossFieldRule) (data : Dict)
    (e : String) (hrt : rule.rule_type = "formula")
    (herr : evalF (buildFieldVals data rule.fields) rule.formula = .error e) :
    rule.run data = none := by
  simp [CrossFieldRule.run, hrt, validateFormula, herr]

/-- Claim C2 witness: the rule `total` over data lacking `total` — the
expression raises `NameError`, and the rule reports no violation. -/
theorem formula_eval_error_passes_silently_witness :
    CrossFieldRule.run ruleFormulaTotal dataNoTotal = none :=
  formula_eval_error_passes_silently ruleFormulaTotal dataNoTotal
    "NameError: name total is not defined" rfl rfl

/-- Claim C2 counterexample: evaluating the formula of `ruleFormulaTotal`
over `dataNoTotal` raises `NameError` (the referenced field is missing),
yet the cross-field validator returns an EMPTY violation list for the row
— the evaluation failure passes silently, contradicting the claim that a
violation is recorded. -/
theorem formula_eval_error_no_violation_recorded :
    evalF (buildFieldVals dataNoTotal ruleFormulaTotal.fields) ruleFormulaTotal.formula
      = .error "NameError: name total is not defined"
    ∧ crossValidate [ruleFormulaTotal] dataNoTotal = [] :=
  ⟨rfl, rfl⟩

/-! Claim C8: structural rules skip fields absent from the canonical data. -/

/-- Removing a rule whose field is absent from the data from any position
of the rule list leaves the structural validation result unchanged
(generalized over the accumulated violations). -/
theorem rowValidateAux_skip (env : PyEnv) (data : Dict) (r : ValidationRule)
    (rs₁ rs₂ : List ValidationRule) (h : aget data r.field = none) :
    ∀ acc, rowValidateAux env data (rs₁ ++ r :: rs₂) acc
      = rowValidateAux env data (rs₁ ++ rs₂) acc := by
  induction rs₁ with
  | nil =>
      intro acc
      simp only [List.nil_append, rowValidateAux, h]
  | cons x xs ih =>
      intro acc
      cases hx : aget data x.field with
      | none =>
          simp only [List.cons_append, rowValidateAux, hx]
          exact ih acc
      | some v =>
          cases hr : ValidationRule.run env x v with
          | error e =>
              simp only [List.cons_append, rowValidateAux, hx, hr]
          | ok p =>
              obtain ⟨b, msg⟩ := p
              cases b
              · simp only [List.cons_append, rowValidateAux, hx, hr]
                exact ih _
              · simp only [List.cons_append, rowValidateAux, hx, hr]
                exact ih acc

/-- Claim C8 (confirmed): a structural rule whose field is not a key of
the row's canonical data contributes no violation — `RowValidator.validate`
skips it, whatever its kind (including `required`: absence of the key is
never flagged; `required` flags only a present-but-null/blank value). -/
theorem structural_missing_field_skipped (env : PyEnv) (data : Dict)
    (r : ValidationRule) (rs₁ rs₂ : List ValidationRule)
    (h : aget data r.field = none) :
    rowValidate env (rs₁ ++ r :: rs₂) data = rowValidate env (rs₁ ++ rs₂) data :=
  rowValidateAux_skip env data r rs₁ rs₂ h []

/-- Claim C8 witness: a `required` rule on the absent field `warehouse`
leaves the validation of `{quantity: 2}` unchanged (no violation). -/
theorem structural_missing_field_skipped_witness :
    rowValidate envNull ([] ++ reqRuleMissing :: []) dataNoTotal
      = rowValidate envNull ([] ++ []) dataNoTotal :=
  structural_missing_field_skipped envNull dataNoTotal reqRuleMissing [] [] rfl

/-! Claim C9: the numeric range check on `None` values and its inclusive
exact-decimal bounds. -/

/-- Claim C9 (confirmed): `_range_check` substitutes exact decimal zero
for a `None` value (so a positive inclusive minimum flags `None`), and
bound comparisons are inclusive and exact: a value equal to either bound
passes, a value strictly below the minimum or strictly above the maximum
fails. -/
theorem range_check_decimal_semantics (env : PyEnv) (msg : String) (kw : VKwargs)
    (m M q : ℚ) (hmin : kw.min_value = some m) (hmax : kw.max_value = some M) :
    (0 < m → rangeCheck env .vnone msg kw = .ok (false, some msg))
    ∧ (m ≤ q → q ≤ M → rangeCheck env (.vnum q) msg kw = .ok (true, none))
    ∧ (q < m → rangeCheck env (.vnum q) msg kw = .ok (false, some msg))
    ∧ (M < q → rangeCheck env (.vnum q) msg kw = .ok (false, some msg)) := by
  refine ⟨?_, ?_, ?_, ?_⟩
  · intro h0
    simp [rangeCheck, hmin, hmax, h0]
  · intro h1 h2
    simp [rangeCheck, hmin, hmax, not_lt.mpr h1, not_lt.mpr h2]
  · intro h1
    simp [rangeCheck, hmin, hmax, h1]
  · intro h1
    simp [rangeCheck, hmin, hmax, h1, not_lt.mpr (le_of_lt h1)]

/-- Claim C9 witness: on the inclusive range [1, 10], a `None` value is
flagged (0 < 1) and the boundary value 1 passes. -/
theorem range_check_decimal_semantics_witness :
    rangeCheck envNull .vnone "amount out of range" kwRange1to10
      = .ok (false, some "amount out of range")
    ∧ rangeCheck envNull (.vnum 1) "amount out of range" kwRange1to10
      = .ok (true, none) :=
  ⟨(range_check_decimal_semantics envNull "amount out of range" kwRange1to10
      1 10 1 rfl rfl).1 (by norm_num),
   (range_check_decimal_semantics envNull "amount out of range" kwRange1to10
      1 10 1 rfl rfl).2.1 (le_refl 1) (by norm_num)⟩

/-! Claim C10: structural rules of unregistered kinds. -/

/-- Claim C10 (confirmed): a structural rule whose kind is none of the
seven registered kinds reports every value as valid — the registry lookup
fails, a warning is logged, and `(True, None)` is returned; no violation
and no exception. -/
theorem unknown_rule_kind_passes (env : PyEnv) (rule : ValidationRule) (v : Value)
    (h : rule.rule_type ∉
      ["required", "type", "range", "enum", "regex", "length", "date_format"]) :
    rule.run env v = .ok (true, none) := by
  simp only [List.mem_cons, List.mem_singleton, not_or] at h
  obtain ⟨h1, h2, h3, h4, h5, h6, h7, -⟩ := h
  simp [ValidationRule.run, validatorFor, h1, h2, h3, h4, h5, h6, h7]

/-- Claim C10 witness: a rule of kind `uniqueness` (unregistered) passes
the value `"x"`. -/
theorem unknown_rule_kind_passes_witness :
    ValidationRule.run envNull unknownKindRule (.vstr "x") = .ok (true, none) :=
  unknown_rule_kind_passes envNull unknownKindRule (.vstr "x") (by decide)

/-! Claim C3: composition of the three validation layers in
`validate_row`. -/

/-- Claim C3 (corrected): PROVIDED the structural layer's rule
evaluations all return normally, `validate_row` runs all three layers
without short-circuiting, the final violation list is the concatenation
structural ++ cross-field ++ semantic, and the status is VALID exactly
when that list is empty.  The proviso is forced: a `range` (or decimal
`type`) rule applied to a string `Decimal` cannot parse raises
`decimal.InvalidOperation`, which `except (ValueError, TypeError)` does
not catch, aborting the row's validation before the later layers run. -/
theorem validation_layers_concat (env : PyEnv) (srules : List ValidationRule)
    (crules : List CrossFieldRule) (mrules : List SemanticRule) (row : Row)
    (fe : List Violation)
    (h : rowValidate env srules row.canonical_data = .ok fe) :
    validate_row env srules crules mrules row
      = .ok { row with
          validation_errors := fe ++ crossValidate crules row.canonical_data
            ++ semValidate env mrules row.canonical_data,
          status := if (fe ++ crossValidate crules row.canonical_data
              ++ semValidate env mrules row.canonical_data).isEmpty
            then .valid else .flagged }
    ∧ (∀ r', validate_row env srules crules mrules row = .ok r' →
        (r'.status = .valid ↔ r'.validation_errors = [])) := by
  have h1 : validate_row env srules crules mrules row
      = .ok { row with
          validation_errors := fe ++ crossValidate crules row.canonical_data
            ++ semValidate env mrules row.canonical_data,
          status := if (fe ++ crossValidate crules row.canonical_data
              ++ semValidate env mrules row.canonical_data).isEmpty
            then .valid else .flagged } := by
    simp [validate_row, h]
  refine ⟨h1, ?_⟩
  intro r' hr'
  rw [h1] at hr'
  have hr'' : r' = { row with
      validation_errors := fe ++ crossValidate crules row.canonical_data
        ++ semValidate env mrules row.canonical_data,
      status := if (fe ++ crossValidate crules row.canonical_data
          ++ semValidate env mrules row.canonical_data).isEmpty
        then .valid else .flagged } := by
    cases hr'
    rfl
  subst hr''
  cases hl : fe ++ crossValidate crules row.canonical_data
      ++ semValidate env mrules row.canonical_data with
  | nil => simp [hl]
  | cons a t => simp [hl]

/-- Claim C3 witness: a row passing the structural layer but failing the
semantic layer ends FLAGGED with exactly the concatenated violation
list. -/
theorem validation_layers_concat_witness :
    validate_row envNull [rangeRuleAmount] [] [semRuleStatus] rowGoodAmount
      = .ok { rowGoodAmount with
          validation_errors := [] ++ crossValidate [] rowGoodAmount.canonical_data
            ++ semValidate envNull [semRuleStatus] rowGoodAmount.canonical_data,
          status := if ([] ++ crossValidate [] rowGoodAmount.canonical_data
              ++ semValidate envNull [semRuleStatus] rowGoodAmount.canonical_data).isEmpty
            then .valid else .flagged } :=
  (validation_layers_concat envNull [rangeRuleAmount] [] [semRuleStatus]
    rowGoodAmount [] rfl).1

/-- Claim C3 counterexample: on a row whose `amount` is `"abc"`, the
structural range rule raises `decimal.InvalidOperation`; `validate_row`
aborts with that exception, so the cross-field and semantic layers never
run and no violation list or status is produced — even though the
semantic layer alone would have flagged the row.  This contradicts the
claim that all three layers always run and their violations are all
collected. -/
theorem validation_structural_exception_aborts :
    validate_row envNull [rangeRuleAmount] [] [semRuleStatus] rowBadAmount
      = .error "InvalidOperation"
    ∧ semValidate envNull [semRuleStatus] rowBadAmount.canonical_data
      = [⟨"order_status", "status_transition", "illegal status"⟩] :=
  ⟨rfl, rfl⟩

/-! Claim C4: idempotent re-ingestion of byte-identical content. -/

/-- Inserting row records never touches the files collection. -/
theorem foldl_insertRow_files (rows : List StoredRow) :
    ∀ s : Store, (rows.foldl insertRow s).files = s.files := by
  induction rows with
  | nil => intro s; rfl
  | cons r rs ih =>
      intro s
      simp only [List.foldl_cons]
      rw [ih]
      rfl

theorem countKey_aset_absent {α : Type} (l : List (String × α)) (k : String) (v : α)
    (h : aget l k = none) : countKey (aset l k v) k = 1 := by
  induction l with
  | nil => simp [countKey, aset]
  | cons p t ih =>
      by_cases hp : p.1 = k
      · simp [aget, hp] at h
      · have ht : aget t k = none := by
          simpa [aget, hp] using h
        have hpb : (p.1 == k) = false := by simpa using hp
        simp only [countKey, aset, hpb, Bool.false_eq_true, if_false, List.filter_cons]
        simpa [countKey] using ih ht

theorem countKey_aset_present {α : Type} (l : List (String × α)) (k : String)
    (v w : α) (h : aget l k = some w) : countKey (aset l k v) k = countKey l k := by
  induction l with
  | nil => simp [aget] at h
  | cons p t ih =>
      by_cases hp : p.1 = k
      · have hpb : (p.1 == k) = true := by simpa using hp
        simp only [countKey, aset, hpb, if_true, List.filter_cons, List.length_cons]
      · have ht : aget t k = some w := by
          simpa [aget, hp] using h
        have hpb : (p.1 == k) = false := by simpa using hp
        simp only [countKey, aset, hpb, Bool.false_eq_true, if_false, List.filter_cons]
        simpa [countKey] using ih ht

/-- Claim C4 (confirmed): once a file's record has reached terminal
SUCCESS, re-ingesting byte-identical content (same content hash, same
decoded chunks) is a no-op on the store: `process_file` returns the
cached rows without writing, so exactly one FileRecord exists under the
content hash, no row records are created, and the stored counts are
unchanged. -/
theorem reingest_after_success_noop (s₀ : Store) (f : IngestFile)
    (hnew : aget s₀.files f.hash = none) (hok : f.decodeError = none) :
    runIngest (runIngest s₀ f) f = runIngest s₀ f
    ∧ aget (runIngest s₀ f).files f.hash
        = some ⟨f.hash, .success, none, (rowsOfChunks f.hash f.chunks).length⟩
    ∧ countKey (runIngest s₀ f).files f.hash = 1 := by
  have h1 : runIngest s₀ f
      = insertFile ((rowsOfChunks f.hash f.chunks).foldl insertRow
          (insertFile (insertFile s₀ ⟨f.hash, .processing, none, 0⟩)
            ⟨f.hash, .success, none, 0⟩))
        ⟨f.hash, .success, none, (rowsOfChunks f.hash f.chunks).length⟩ := by
    simp [runIngest, processOneFile, processFileEager, consumeRows, hnew, hok]
  have hget : aget (runIngest s₀ f).files f.hash
      = some ⟨f.hash, .success, none, (rowsOfChunks f.hash f.chunks).length⟩ := by
    rw [h1]
    simp [insertFile, aget_aset_self]
  have h2 : runIngest (runIngest s₀ f) f = runIngest s₀ f := by
    conv_lhs => rw [runIngest, processOneFile, processFileEager]
    rw [hget]
    rfl
  refine ⟨h2, hget, ?_⟩
  rw [h1]
  simp only [insertFile, foldl_insertRow_files]
  have c₀ : countKey (aset s₀.files f.hash ⟨f.hash, .processing, none, 0⟩) f.hash = 1 :=
    countKey_aset_absent s₀.files f.hash _ hnew
  have g₀ : aget (aset s₀.files f.hash
      (⟨f.hash, .processing, none, 0⟩ : StoredFile)) f.hash = some ⟨f.hash, .processing, none, 0⟩ :=
    aget_aset_self s₀.files f.hash _
  have c₁ : countKey (aset (aset s₀.files f.hash ⟨f.hash, .processing, none, 0⟩)
      f.hash ⟨f.hash, .success, none, 0⟩) f.hash = 1 := by
    rw [countKey_aset_present _ _ _ _ g₀]
    exact c₀
  have g₁ : aget (aset (aset s₀.files f.hash ⟨f.hash, .processing, none, 0⟩)
      f.hash (⟨f.hash, .success, none, 0⟩ : StoredFile)) f.hash
      = some ⟨f.hash, .success, none, 0⟩ :=
    aget_aset_self _ f.hash _
  rw [countKey_aset_present _ _ _ _ g₁]
  exact c₁

/-- Claim C4 witness: ingesting a one-row file into the empty store and
re-ingesting the identical content leaves the store untouched, with one
FileRecord at SUCCESS and row count 1. -/
theorem reingest_after_success_noop_witness :
    runIngest (runIngest emptyStore fileOneRow) fileOneRow = runIngest emptyStore fileOneRow
    ∧ aget (runIngest emptyStore fileOneRow).files "hash1"
        = some ⟨"hash1", .success, none, (rowsOfChunks "hash1" fileOneRow.chunks).length⟩
    ∧ countKey (runIngest emptyStore fileOneRow).files "hash1" = 1 :=
  reingest_after_success_noop emptyStore fileOneRow rfl rfl

/-! Claim C7: disposition of a file whose decoder fails. -/

/-- Claim C7 (code bug): `_parse_and_create_rows` is a generator, so
`process_file` persists the FileRecord as SUCCESS and returns before a
single row is decoded; a decode failure then surfaces while
`process_directory` drives the iterator — outside the `try` block whose
handler was meant to persist FAILED with the causing message.  On a file
whose decoder raises at the first read, the record is left at SUCCESS
with no error message while the error appears only in the batch error
list; the claim (and the handler's evident intent) says the record is
persisted FAILED with the message. -/
theorem decode_failure_leaves_success_status :
    aget (processDirectory emptyStore [fileBadDecode]).1.files "hash2"
      = some ⟨"hash2", .success, none, 0⟩
    ∧ (processDirectory emptyStore [fileBadDecode]).2.errors
      = ["decode failure: bad byte"]
    ∧ (⟨"hash2", FileStatus.success, none, 0⟩ : StoredFile).status ≠ FileStatus.failed :=
  ⟨rfl, rfl, by decide⟩

/-! Claim C6: supporting lemmas on the duplicate-group dictionary. -/

theorem mem_of_aget {α : Type} {d : List (String × α)} {k : String} {v : α}
    (h : aget d k = some v) : (k, v) ∈ d := by
  induction d with
  | nil => simp [aget] at h
  | cons p t ih =>
      by_cases hp : p.1 = k
      · simp only [aget, hp, beq_self_eq_true, if_true] at h
        cases h
        exact List.mem_cons.mpr (Or.inl (by rw [← hp]))
      · have hpb : (p.1 == k) = false := by simpa using hp
        simp only [aget, hpb, Bool.false_eq_true, if_false] at h
        exact List.mem_cons_of_mem p (ih h)

theorem aget_eq_none_iff_keys {α : Type} (d : List (String × α)) (k : String) :
    aget d k = none ↔ k ∉ d.map Prod.fst := by
  induction d with
  | nil => simp [aget]
  | cons p t ih =>
      by_cases hp : p.1 = k
      · simp [aget, hp]
      · have hpb : (p.1 == k) = false := by simpa using hp
        simp [aget, hpb, ih, Ne.symm hp]

theorem aget_of_mem_nodup {α : Type} {d : List (String × α)} {k : String} {v : α}
    (hnd : (d.map Prod.fst).Nodup) (h : (k, v) ∈ d) : aget d k = some v := by
  induction d with
  | nil => simp at h
  | cons p t ih =>
      rcases List.mem_cons.mp h with h1 | h1
      · subst h1
        simp [aget]
      · have hk : k ∈ t.map Prod.fst := List.mem_map.mpr ⟨(k, v), h1, rfl⟩
        have hp : p.1 ≠ k := by
          intro he
          rw [List.map_cons, List.nodup_cons] at hnd
          exact hnd.1 (he ▸ hk)
        have hpb : (p.1 == k) = false := by simpa using hp
        rw [List.map_cons, List.nodup_cons] at hnd
        simp only [aget, hpb, Bool.false_eq_true, if_false]
        exact ih hnd.2 h1

theorem groupAppend_aget_self (d : List (String × List Nat)) (k : String) (i : Nat) :
    aget (groupAppend d k i) k = some ((aget d k).getD [] ++ [i]) := by
  induction d with
  | nil => simp [groupAppend, aget]
  | cons p t ih =>
      by_cases hp : p.1 = k
      · have hpb : (p.1 == k) = true := by simpa using hp
        simp [groupAppend, aget, hpb]
      · have hpb : (p.1 == k) = false := by simpa using hp
        simp only [groupAppend, aget, hpb, Bool.false_eq_true, if_false]
        exact ih

theorem groupAppend_aget_ne (d : List (String × List Nat)) (k k' : String) (i : Nat)
    (h : k' ≠ k) : aget (groupAppend d k i) k' = aget d k' := by
  have hkb : (k == k') = false := beq_eq_false_iff_ne.mpr (Ne.symm h)
  induction d with
  | nil => simp [groupAppend, aget, hkb]
  | cons p t ih =>
      by_cases hp : p.1 = k
      · have hpb : (p.1 == k) = true := by simpa using hp
        have hpb' : (p.1 == k') = false := by
          simp only [beq_eq_false_iff_ne, ne_eq]
          rw [hp]
          exact fun hh => h hh.symm
        simp [groupAppend, aget, hpb, hpb']
      · have hpb : (p.1 == k) = false := by simpa using hp
        simp only [groupAppend, aget, hpb, Bool.false_eq_true, if_false]
        by_cases hq : p.1 = k'
        · simp [aget, hq]
        · have hqb : (p.1 == k') = false := by simpa using hq
          simp only [aget, hqb, Bool.false_eq_true, if_false]
          exact ih

theorem groupAppend_keys (d : List (String × List Nat)) (k : String) (i : Nat) :
    (groupAppend d k i).map Prod.fst
      = if (aget d k).isSome then d.map Prod.fst else d.map Prod.fst ++ [k] := by
  induction d with
  | nil => simp [groupAppend, aget]
  | cons p t ih =>
      by_cases hp : p.1 = k
      · have hpb : (p.1 == k) = true := by simpa using hp
        simp [groupAppend, aget, hpb]
      · have hpb : (p.1 == k) = false := by simpa using hp
        simp only [groupAppend, aget, hpb, Bool.false_eq_true, if_false, List.map_cons, ih]
        by_cases hs : (aget t k).isSome
        · simp [hs]
        · simp [hs]

theorem groupAppend_keysNodup (d : List (String × List Nat)) (k : String) (i : Nat)
    (h : (d.map Prod.fst).Nodup) : ((groupAppend d k i).map Prod.fst).Nodup := by
  rw [groupAppend_keys]
  by_cases hs : (aget d k).isSome = true
  · rw [if_pos hs]
    exact h
  · have hk : k ∉ d.map Prod.fst := by
      rw [← aget_eq_none_iff_keys]
      exact Option.not_isSome_iff_eq_none.mp hs
    rw [if_neg hs]
    refine List.Nodup.append h (List.nodup_singleton k) ?_
    intro a ha hb
    rw [List.mem_singleton] at hb
    subst hb
    exact hk ha

theorem buildGroupsGo_keysNodup (env : PyEnv) (kfs : List String) :
    ∀ (rs : List Row) (i : Nat) (d : List (String × List Nat)),
      (d.map Prod.fst).Nodup → ((buildGroupsGo env kfs rs i d).map Prod.fst).Nodup := by
  intro rs
  induction rs with
  | nil => intro i d h; exact h
  | cons r rs' ih =>
      intro i d h
      exact ih (i + 1) _ (groupAppend_keysNodup d (generate_dedup_key env r kfs) i h)

/-- Invariant of the `find_duplicates` dictionary loop: after processing
the first `i` rows, every key maps to exactly the ascending list of
indices below `i` bearing that key (absent iff that list is empty). -/
theorem buildGroupsGo_aget (env : PyEnv) (kfs : List String) (rows : List Row) :
    ∀ (rs : List Row) (i : Nat) (d : List (String × List Nat)),
      rows.drop i = rs → i ≤ rows.length →
      (∀ k, aget d k =
        if ((List.range i).filter (fun j => keyAt env kfs rows j == k)) = [] then none
        else some ((List.range i).filter (fun j => keyAt env kfs rows j == k))) →
      ∀ k, aget (buildGroupsGo env kfs rs i d) k =
        if ((List.range rows.length).filter (fun j => keyAt env kfs rows j == k)) = []
          then none
        else some ((List.range rows.length).filter (fun j => keyAt env kfs rows j == k)) := by
  intro rs
  induction rs with
  | nil =>
      intro i d hdrop hile hinv k
      have hlen : rows.length ≤ i := List.drop_eq_nil_iff.mp hdrop
      have : i = rows.length := le_antisymm hile hlen
      subst this
      exact hinv k
  | cons r rs' ih =>
      intro i d hdrop hile hinv k
      have hlt : i < rows.length := by
        have hlen := congrArg List.length hdrop
        simp only [List.length_drop, List.length_cons] at hlen
        omega
      have hdecomp : rows.drop i = rows[i] :: rows.drop (i + 1) :=
        List.drop_eq_getElem_cons hlt
      rw [hdrop] at hdecomp
      injection hdecomp with h1 h2
      have hkey : generate_dedup_key env r kfs = keyAt env kfs rows i := by
        simp [keyAt, List.getElem?_eq_getElem hlt, h1]
      refine ih (i + 1) (groupAppend d (generate_dedup_key env r kfs) i)
        h2.symm (by omega) ?_ k
      intro k'
      by_cases hk' : k' = keyAt env kfs rows i
      · rw [hk', hkey, groupAppend_aget_self, hinv]
        have hfilters :
            (List.range (i + 1)).filter
                (fun j => keyAt env kfs rows j == keyAt env kfs rows i)
              = ((List.range i).filter
                  (fun j => keyAt env kfs rows j == keyAt env kfs rows i)) ++ [i] := by
          rw [List.range_succ, List.filter_append]
          simp [List.filter]
        rw [hfilters]
        by_cases h0 : (List.range i).filter
            (fun j => keyAt env kfs rows j == keyAt env kfs rows i) = []
        · rw [if_pos h0, h0]
          simp
        · rw [if_neg h0]
          simp
      · rw [hkey, groupAppend_aget_ne _ _ _ _ hk', hinv]
        have hne : (keyAt env kfs rows i == k') = false :=
          beq_eq_false_iff_ne.mpr (fun he => hk' he.symm)
        have hfilters :
            (List.range (i + 1)).filter (fun j => keyAt env kfs rows j == k')
              = (List.range i).filter (fun j => keyAt env kfs rows j == k') := by
          rw [List.range_succ, List.filter_append]
          simp [List.filter, hne]
        rw [hfilters]

/-- The complete dictionary built by `find_duplicates` maps each key to
the ascending list of all row indices bearing it. -/
theorem groupsDict_aget (env : PyEnv) (kfs : List String) (rows : List Row) (k : String) :
    aget (buildGroupsGo env kfs rows 0 []) k =
      if keyIndices env kfs rows k = [] then none
      else some (keyIndices env kfs rows k) := by
  have h := buildGroupsGo_aget env kfs rows rows 0 [] rfl (Nat.zero_le _)
    (by intro k'; simp [aget]) k
  simpa [keyIndices] using h

/-- Membership in `find_duplicates`: exactly the keys whose index list has
more than one element, each paired with that full ascending index list. -/
theorem find_duplicates_mem (env : PyEnv) (kfs : List String) (rows : List Row)
    (k : String) (l : List Nat) :
    (k, l) ∈ find_duplicates env rows kfs
      ↔ l = keyIndices env kfs rows k ∧ 1 < l.length := by
  constructor
  · intro h
    have hmem := List.mem_filter.mp h
    have hnd : ((buildGroupsGo env kfs rows 0 []).map Prod.fst).Nodup :=
      buildGroupsGo_keysNodup env kfs rows 0 [] (by simp)
    have hag := aget_of_mem_nodup hnd hmem.1
    rw [groupsDict_aget] at hag
    by_cases h0 : keyIndices env kfs rows k = []
    · rw [if_pos h0] at hag
      cases hag
    · rw [if_neg h0] at hag
      injection hag with he
      exact ⟨he.symm, by simpa using hmem.2⟩
  · rintro ⟨hl, hlen⟩
    subst hl
    apply List.mem_filter.mpr
    refine ⟨?_, by simpa using hlen⟩
    apply mem_of_aget
    rw [groupsDict_aget]
    rw [if_neg ?_]
    intro h0
    rw [h0] at hlen
    simp at hlen

/-- The duplicate groups carry pairwise-distinct keys. -/
theorem find_duplicates_keysNodup (env : PyEnv) (kfs : List String) (rows : List Row) :
    ((find_duplicates env rows kfs).map Prod.fst).Nodup := by
  have hnd : ((buildGroupsGo env kfs rows 0 []).map Prod.fst).Nodup :=
    buildGroupsGo_keysNodup env kfs rows 0 [] (by simp)
  exact List.Nodup.sublist (List.Sublist.map Prod.fst (List.filter_sublist _)) hnd

/-- An index list of `keyIndices` is strictly increasing. -/
theorem keyIndices_pairwise (env : PyEnv) (kfs : List String) (rows : List Row)
    (k : String) : (keyIndices env kfs rows k).Pairwise (· < ·) :=
  List.Pairwise.sublist (List.filter_sublist _) (List.pairwise_lt_range _)

/-- Membership in `keyIndices`. -/
theorem mem_keyIndices (env : PyEnv) (kfs : List String) (rows : List Row)
    (k : String) (j : Nat) :
    j ∈ keyIndices env kfs rows k ↔ j < rows.length ∧ keyAt env kfs rows j = k := by
  simp [keyIndices, List.mem_filter, List.mem_range]

theorem appendDupAt_getElem_self (rs : List Row) (kept idx : Nat) :
    (appendDupAt rs kept idx)[idx]? = (rs[idx]?).map (fun r => addDupViol r kept) := by
  unfold appendDupAt
  cases h : rs[idx]? with
  | none => simp [h]
  | some r =>
      obtain ⟨hlt, -⟩ := List.getElem?_eq_some_iff.mp h
      simp [h, List.getElem?_set_self hlt]

theorem appendDupAt_getElem_ne (rs : List Row) (kept idx j : Nat) (h : j ≠ idx) :
    (appendDupAt rs kept idx)[j]? = rs[j]? := by
  unfold appendDupAt
  cases hg : rs[idx]? with
  | none => simp
  | some r => simp [List.getElem?_set_ne (Ne.symm h)]

/-- Folding `appendDupAt` over a duplicate-free index list appends the
marker exactly at the listed indices. -/
theorem foldAppend_getElem (kept : Nat) :
    ∀ (js : List Nat) (rs : List Row) (j : Nat), js.Nodup →
      ((js.foldl (fun a idx => appendDupAt a kept idx) rs)[j]?
        = if j ∈ js then (rs[j]?).map (fun r => addDupViol r kept) else rs[j]?) := by
  intro js
  induction js with
  | nil => intro rs j _; simp
  | cons x xs ih =>
      intro rs j hnd
      rw [List.nodup_cons] at hnd
      simp only [List.foldl_cons]
      by_cases hj : j = x
      · subst hj
        rw [ih (appendDupAt rs kept j) j hnd.2]
        rw [if_neg (fun hc => hnd.1 hc)]
        rw [appendDupAt_getElem_self]
        simp
      · rw [ih (appendDupAt rs kept x) j hnd.2]
        rw [appendDupAt_getElem_ne rs kept x j hj]
        by_cases hm : j ∈ xs
        · rw [if_pos hm, if_pos (List.mem_cons_of_mem x hm)]
        · rw [if_neg hm, if_neg (by simp [hj, hm])]

/-- `markGroup` under keep-first touches exactly the indices after the
first, appending a marker referencing the group's first index. -/
theorem markGroup_getElem (rs : List Row) (l : List Nat) (j : Nat)
    (hnd : (l.drop 1).Nodup) :
    (markGroup true rs l)[j]?
      = if j ∈ l.drop 1 then (rs[j]?).map (fun r => addDupViol r (l.headD 0))
        else rs[j]? := by
  unfold markGroup
  simpa using foldAppend_getElem (l.headD 0) (l.drop 1) rs j hnd

/-- Folding group marking over groups none of which lists `j` as a
non-first member leaves position `j` unchanged. -/
theorem markFold_getElem_untouched :
    ∀ (gs : List (String × List Nat)) (rs : List Row) (j : Nat),
      (∀ p ∈ gs, (p.2.drop 1).Nodup) →
      (∀ p ∈ gs, j ∉ p.2.drop 1) →
      ((gs.foldl (fun a p => markGroup true a p.2) rs)[j]? = rs[j]?) := by
  intro gs
  induction gs with
  | nil => intro rs j _ _; rfl
  | cons p gs' ih =>
      intro rs j hnd hno
      simp only [List.foldl_cons]
      rw [ih (markGroup true rs p.2) j
        (fun q hq => hnd q (List.mem_cons_of_mem p hq))
        (fun q hq => hno q (List.mem_cons_of_mem p hq))]
      rw [markGroup_getElem rs p.2 j (hnd p (List.mem_cons_self p gs'))]
      rw [if_neg (hno p (List.mem_cons_self p gs'))]

/-- Folding group marking over groups with distinct keys, one of which
lists `j` as a non-first member (and no other does), appends exactly one
marker at `j`, referencing that group's first index. -/
theorem markFold_getElem_hit :
    ∀ (gs : List (String × List Nat)) (rs : List Row) (j : Nat) (k : String)
      (l : List Nat),
      (k, l) ∈ gs → j ∈ l.drop 1 →
      (∀ p ∈ gs, (p.2.drop 1).Nodup) →
      (∀ p ∈ gs, p.1 ≠ k → j ∉ p.2.drop 1) →
      ((gs.map Prod.fst).Nodup) →
      ((gs.foldl (fun a p => markGroup true a p.2) rs)[j]?
        = (rs[j]?).map (fun r => addDupViol r (l.headD 0))) := by
  intro gs
  induction gs with
  | nil => intro rs j k l hmem; simp at hmem
  | cons p gs' ih =>
      intro rs j k l hmem hj hnd hother hkeys
      rw [List.map_cons, List.nodup_cons] at hkeys
      simp only [List.foldl_cons]
      rcases List.mem_cons.mp hmem with h1 | h1
      · have hp2 : p.2 = l := by rw [← h1]
        have hp1 : p.1 = k := by rw [← h1]
        have hnone : ∀ q ∈ gs', j ∉ q.2.drop 1 := by
          intro q hq
          refine hother q (List.mem_cons_of_mem p hq) ?_
          intro he
          refine hkeys.1 ?_
          rw [hp1, ← he]
          exact List.mem_map.mpr ⟨q, hq, rfl⟩
        rw [markFold_getElem_untouched gs' (markGroup true rs p.2) j
          (fun q hq => hnd q (List.mem_cons_of_mem p hq)) hnone]
        rw [markGroup_getElem rs p.2 j (hnd p (List.mem_cons_self p gs'))]
        rw [hp2]
        rw [if_pos hj]
      · have hp1 : p.1 ≠ k := by
          intro he
          have : k ∈ gs'.map Prod.fst := List.mem_map.mpr ⟨(k, l), h1, rfl⟩
          exact hkeys.1 (he ▸ this)
        have hthis : j ∉ p.2.drop 1 := hother p (List.mem_cons_self p gs') hp1
        have hstep : (markGroup true rs p.2)[j]? = rs[j]? := by
          rw [markGroup_getElem rs p.2 j (hnd p (List.mem_cons_self p gs'))]
          rw [if_neg hthis]
        rw [ih (markGroup true rs p.2) j k l h1 hj
          (fun q hq => hnd q (List.mem_cons_of_mem p hq))
          (fun q hq => hother q (List.mem_cons_of_mem p hq)) hkeys.2]
        rw [hstep]

/-- Every duplicate group's tail (and head) is duplicate-free. -/
theorem find_duplicates_tails_nodup (env : PyEnv) (kfs : List String)
    (rows : List Row) :
    ∀ p ∈ find_duplicates env rows kfs, (p.2.drop 1).Nodup := by
  intro p hp
  obtain ⟨hpl, -⟩ := (find_duplicates_mem env kfs rows p.1 p.2).mp hp
  rw [hpl]
  have hnd : (keyIndices env kfs rows p.1).Nodup :=
    List.Pairwise.imp Nat.ne_of_lt (keyIndices_pairwise env kfs rows p.1)
  exact List.Nodup.sublist (List.drop_sublist 1 _) hnd

/-- Claim C6 (confirmed): under keep-first duplicate marking, the row at
index `i` is left byte-identical unless some EARLIER row shares its dedup
key, in which case exactly one duplicate violation is appended to its
pre-existing violation list, referencing the index of the kept first row
of the group (the least index with that key).  In particular the first
row of each group gains nothing and no row's prior violations are removed
or altered. -/
theorem mark_duplicates_additive (env : PyEnv) (kfs : List String)
    (rows : List Row) (i : Nat) (hi : i < rows.length) :
    (mark_duplicates env rows kfs true)[i]?
      = some (
          if (List.range i).any
              (fun j => keyAt env kfs rows j == keyAt env kfs rows i)
          then addDupViol rows[i]
            ((keyIndices env kfs rows (keyAt env kfs rows i)).headD 0)
          else rows[i]) := by
  have hndAll := find_duplicates_tails_nodup env kfs rows
  cases hcond : (List.range i).any
      (fun j => keyAt env kfs rows j == keyAt env kfs rows i) with
  | false =>
      have hno : ∀ p ∈ find_duplicates env rows kfs, i ∉ p.2.drop 1 := by
        intro p hp hmem
        obtain ⟨hpl, -⟩ := (find_duplicates_mem env kfs rows p.1 p.2).mp hp
        have hiP : i ∈ p.2 := List.mem_of_mem_drop hmem
        have hki : keyAt env kfs rows i = p.1 :=
          ((mem_keyIndices env kfs rows p.1 i).mp (hpl ▸ hiP)).2
        cases hp2 : p.2 with
        | nil => rw [hp2] at hmem; simp at hmem
        | cons x t =>
            rw [hp2] at hmem
            simp only [List.drop_one, List.tail_cons] at hmem
            have hpw : (x :: t).Pairwise (· < ·) := by
              rw [← hp2, hpl]
              exact keyIndices_pairwise env kfs rows p.1
            have hxi : x < i := (List.pairwise_cons.mp hpw).1 i hmem
            have hxmem : x ∈ p.2 := by
              rw [hp2]
              exact List.mem_cons_self x t
            have hkx : keyAt env kfs rows x = p.1 :=
              ((mem_keyIndices env kfs rows p.1 x).mp (hpl ▸ hxmem)).2
            have hany : (List.range i).any
                (fun j => keyAt env kfs rows j == keyAt env kfs rows i) = true := by
              apply List.any_eq_true.mpr
              refine ⟨x, List.mem_range.mpr hxi, ?_⟩
              simp [hkx, hki]
            rw [hcond] at hany
            cases hany
      unfold mark_duplicates
      rw [markFold_getElem_untouched (find_duplicates env rows kfs) rows i hndAll hno]
      rw [List.getElem?_eq_getElem hi]
      simp [hcond]
  | true =>
      obtain ⟨j, hjr, hjk⟩ := List.any_eq_true.mp hcond
      have hji : j < i := List.mem_range.mp hjr
      have hjk' : keyAt env kfs rows j = keyAt env kfs rows i := by simpa using hjk
      have hiL : i ∈ keyIndices env kfs rows (keyAt env kfs rows i) :=
        (mem_keyIndices env kfs rows _ i).mpr ⟨hi, rfl⟩
      have hjL : j ∈ keyIndices env kfs rows (keyAt env kfs rows i) :=
        (mem_keyIndices env kfs rows _ j).mpr ⟨lt_trans hji hi, hjk'⟩
      have hpw := keyIndices_pairwise env kfs rows (keyAt env kfs rows i)
      cases hL : keyIndices env kfs rows (keyAt env kfs rows i) with
      | nil =>
          rw [hL] at hiL
          simp at hiL
      | cons x L' =>
          rw [hL] at hiL hjL hpw
          have hxlt : ∀ m ∈ L', x < m := (List.pairwise_cons.mp hpw).1
          have hiL' : i ∈ L' := by
            rcases List.mem_cons.mp hiL with hix | h
            · rcases List.mem_cons.mp hjL with hjx | hjmem
              · omega
              · have := hxlt j hjmem
                omega
            · exact h
          have hlen2 : 1 < (x :: L').length := by
            have hne : L' ≠ [] := List.ne_nil_of_mem hiL'
            cases L' with
            | nil => exact absurd rfl hne
            | cons y t => simp
          have hG : (keyAt env kfs rows i, x :: L') ∈ find_duplicates env rows kfs :=
            (find_duplicates_mem env kfs rows _ _).mpr ⟨hL.symm, hlen2⟩
          have hother : ∀ p ∈ find_duplicates env rows kfs,
              p.1 ≠ keyAt env kfs rows i → i ∉ p.2.drop 1 := by
            intro p hp hne hmem
            obtain ⟨hpl, -⟩ := (find_duplicates_mem env kfs rows p.1 p.2).mp hp
            have hiP : i ∈ p.2 := List.mem_of_mem_drop hmem
            have := ((mem_keyIndices env kfs rows p.1 i).mp (hpl ▸ hiP)).2
            exact hne this.symm
          have hdropm : i ∈ (x :: L').drop 1 := by
            simpa using hiL'
          unfold mark_duplicates
          rw [markFold_getElem_hit (find_duplicates env rows kfs) rows i
            (keyAt env kfs rows i) (x :: L') hG hdropm hndAll hother
            (find_duplicates_keysNodup env kfs rows)]
          rw [List.getElem?_eq_getElem hi]
          simp

/-- Claim C6 witness: in the spec's own scenario (`"a100 "` at index 0,
`"A100"` at index 1 under key field `order_id`, unique `"Z9"` at index 2),
row 1 gains exactly the duplicate violation referencing index 0 on top of
its prior violations, and row 0 — which carries a pre-existing range
violation — is returned unchanged. -/
theorem mark_duplicates_additive_witness :
    (mark_duplicates envNull rowsDup ["order_id"] true)[1]?
      = some (addDupViol (rowsDup.get ⟨1, by decide⟩) 0)
    ∧ (mark_duplicates envNull rowsDup ["order_id"] true)[0]?
      = some (rowsDup.get ⟨0, by decide⟩) := by
  constructor
  · rw [mark_duplicates_additive envNull ["order_id"] rowsDup 1 (by decide)]
    decide
  · rw [mark_duplicates_additive envNull ["order_id"] rowsDup 0 (by decide)]
    decide

end VendorAuto
